import Mathlib

/-!
Verification of the tree serializer and CLI glue of `py2ast.py`.

The program serializes a Python `ast` tree to a JSON-compatible document:

* `ast_to_dict(node)` maps an `ast.AST` instance to a dict with key `_type`
  (the class name), then one key per name in `node._fields` (value
  `getattr(node, field)`, recursively serialized; `getattr` with no default
  raises when the field is absent), then one key per name in
  `node._attributes` (value `getattr(node, attr, None)`, recursively
  serialized).  A `list` maps to the list of serialized elements; anything
  else is returned unchanged.
* The `__main__` block checks `len(sys.argv) != 2`, prints a usage line to
  stderr and exits with status 1 on a count mismatch; otherwise it reads the
  file as UTF-8, calls `ast.parse(source, filename, mode=..., type_comments=True)`
  in whole-file mode, serializes, and `json.dump`s the result to stdout with
  indent 2 and `ensure_ascii=False`.

Python runtime values relevant to the serializer are embedded as `PyVal`.
A node carries its class name (`kind`), its declared field-name list
(`_fields`), its declared attribute-name list (the `_attributes` tuple),
and its instance dictionary (name/value pairs; `getattr` is first-match
lookup in it).
-/

inductive PyVal : Type where
  /-- An `ast.AST` instance: class name, `_fields`, `_attributes`,
      and the instance dictionary holding the actually present members. -/
  | node (kind : String) (fields : List String) (attributes : List String)
      (dict : List (String × PyVal))
  /-- A Python `list`. -/
  | list (elts : List PyVal)
  /-- A Python `dict` (as produced by serialization). -/
  | dict (entries : List (String × PyVal))
  /-- A Python `tuple`: an ordered sequence that is not a `list` instance. -/
  | tuple (elts : List PyVal)
  | str (s : String)
  | int (n : Int)
  | boolean (b : Bool)
  /-- A Python `bytes` object, one of the scalars the serializer has no case for. -/
  | bytes (bs : List Nat)
  /-- Python `None`. -/
  | none

/-- `getattr(obj, name)` restricted to the instance dictionary:
first binding of `name` wins, absence is `Option.none`. -/
def getattr? : List (String × PyVal) → String → Option PyVal
  | [], _ => Option.none
  | (k, v) :: rest, name => if k = name then some v else getattr? rest name

theorem list_sizeOf_pos {α : Type} [SizeOf α] (l : List α) : 0 < sizeOf l := by
  cases l <;> simp

theorem getattr?_sizeOf {d : List (String × PyVal)} {k : String} {v : PyVal}
    (h : getattr? d k = some v) : sizeOf v < sizeOf d := by
  induction d with
  | nil => simp [getattr?] at h
  | cons hd tl ih =>
    obtain ⟨hk, hv⟩ := hd
    simp only [getattr?] at h
    split at h
    · cases h
      simp
      omega
    · have := ih h
      simp
      omega

mutual

/-- The serializer `ast_to_dict` of `py2ast.py`.  `getattr(node, field)` has
no default, so an absent field is an `AttributeError`; the result is hence an
`Except`.  `getattr(node, attr, None)` is `(getattr? dict a).getD .none`. -/
def ast_to_dict : PyVal → Except String PyVal
  | .node kind fields attributes d =>
    match serFields d fields with
    | .error e => .error e
    | .ok fdocs =>
      match serAttrs d attributes with
      | .error e => .error e
      | .ok adocs => .ok (.dict (("_type", .str kind) :: (fdocs ++ adocs)))
  | .list elts =>
    match serList elts with
    | .error e => .error e
    | .ok docs => .ok (.list docs)
  | v => .ok v
termination_by v => sizeOf v

/-- The field loop of `ast_to_dict`: `result[field] = ast_to_dict(getattr(node, field))`. -/
def serFields (d : List (String × PyVal)) : List String → Except String (List (String × PyVal))
  | [] => .ok []
  | f :: rest =>
    match h : getattr? d f with
    | Option.none => .error ("AttributeError: " ++ f)
    | some v =>
      match ast_to_dict v with
      | .error e => .error e
      | .ok doc =>
        match serFields d rest with
        | .error e => .error e
        | .ok tail => .ok ((f, doc) :: tail)
termination_by names => sizeOf d + sizeOf names
decreasing_by
· have := getattr?_sizeOf h
  omega
· simp

/-- The attribute loop of `ast_to_dict`:
`result[attr] = ast_to_dict(getattr(node, attr, None))`. -/
def serAttrs (d : List (String × PyVal)) : List String → Except String (List (String × PyVal))
  | [] => .ok []
  | a :: rest =>
    match ast_to_dict ((getattr? d a).getD PyVal.none) with
    | .error e => .error e
    | .ok doc =>
      match serAttrs d rest with
      | .error e => .error e
      | .ok tail => .ok ((a, doc) :: tail)
termination_by names => sizeOf d + sizeOf names
decreasing_by
· rcases hh : getattr? d f with _ | v
  · have := list_sizeOf_pos d
    simp [hh]
    omega
  · have := getattr?_sizeOf hh
    simp [hh]
    omega
· simp

/-- The list comprehension of `ast_to_dict`: `[ast_to_dict(x) for x in node]`. -/
def serList : List PyVal → Except String (List PyVal)
  | [] => .ok []
  | x :: rest =>
    match ast_to_dict x with
    | .error e => .error e
    | .ok doc =>
      match serList rest with
      | .error e => .error e
      | .ok tail => .ok (doc :: tail)
termination_by l => sizeOf l

end

/-! ### Basic characterizations of the serializer -/

/-- A value that is neither an `ast.AST` node nor a `list` is returned
unchanged by `ast_to_dict` (the final `else` branch of the source). -/
theorem ast_to_dict_scalar (v : PyVal)
    (hn : ∀ k fs ats d, v ≠ PyVal.node k fs ats d)
    (hl : ∀ xs, v ≠ PyVal.list xs) :
    ast_to_dict v = .ok v := by
  cases v with
  | node k fs ats d => exact absurd rfl (hn k fs ats d)
  | list xs => exact absurd rfl (hl xs)
  | dict entries => simp [ast_to_dict]
  | tuple elts => simp [ast_to_dict]
  | str s => simp [ast_to_dict]
  | int n => simp [ast_to_dict]
  | boolean b => simp [ast_to_dict]
  | bytes bs => simp [ast_to_dict]
  | none => simp [ast_to_dict]

theorem ast_to_dict_node_eq (kind : String) (fields attrs : List String)
    (d : List (String × PyVal)) (fdocs adocs : List (String × PyVal))
    (hf : serFields d fields = .ok fdocs) (ha : serAttrs d attrs = .ok adocs) :
    ast_to_dict (PyVal.node kind fields attrs d) =
      .ok (PyVal.dict (("_type", PyVal.str kind) :: (fdocs ++ adocs))) := by
  simp [ast_to_dict, hf, ha]

theorem ast_to_dict_node_inv (kind : String) (fields attrs : List String)
    (d : List (String × PyVal)) (doc : PyVal)
    (h : ast_to_dict (PyVal.node kind fields attrs d) = .ok doc) :
    ∃ fdocs adocs, serFields d fields = .ok fdocs ∧ serAttrs d attrs = .ok adocs ∧
      doc = PyVal.dict (("_type", PyVal.str kind) :: (fdocs ++ adocs)) := by
  rw [ast_to_dict] at h
  split at h
  · cases h
  · split at h
    · cases h
    · cases h
      exact ⟨_, _, by assumption, by assumption, rfl⟩

theorem ast_to_dict_list_inv (xs : List PyVal) (doc : PyVal)
    (h : ast_to_dict (PyVal.list xs) = .ok doc) :
    ∃ docs, serList xs = .ok docs ∧ doc = PyVal.list docs := by
  rw [ast_to_dict] at h
  split at h
  · cases h
  · cases h
    exact ⟨_, by assumption, rfl⟩

/-- The field loop emits exactly the declared field names, in declared order. -/
theorem serFields_fst (d : List (String × PyVal)) (ns : List String)
    (l : List (String × PyVal)) (h : serFields d ns = .ok l) :
    l.map Prod.fst = ns := by
  induction ns generalizing l with
  | nil =>
    rw [serFields] at h
    cases h
    rfl
  | cons f rest ih =>
    rw [serFields] at h
    split at h
    · cases h
    · split at h
      · cases h
      · split at h
        · cases h
        · cases h
          simp [ih _ (by assumption)]

/-- Every entry the field loop emits is the recursive serialization of the
value `getattr` finds for that field name. -/
theorem serFields_mem (d : List (String × PyVal)) (ns : List String)
    (l : List (String × PyVal)) (h : serFields d ns = .ok l) :
    ∀ p ∈ l, ∃ w, getattr? d p.1 = some w ∧ ast_to_dict w = .ok p.2 := by
  induction ns generalizing l with
  | nil =>
    rw [serFields] at h
    cases h
    intro p hp
    cases hp
  | cons f rest ih =>
    rw [serFields] at h
    split at h
    · cases h
    · split at h
      · cases h
      · split at h
        · cases h
        · cases h
          intro p hp
          rcases List.mem_cons.mp hp with hp | hp
          · subst hp
            exact ⟨_, by assumption, by assumption⟩
          · exact ih _ (by assumption) p hp

/-- If some declared field is absent from the instance dictionary, the field
loop raises (`getattr` with no default). -/
theorem serFields_absent (d : List (String × PyVal)) (ns : List String)
    (f : String) (hmem : f ∈ ns) (habs : getattr? d f = Option.none) :
    ∃ e, serFields d ns = .error e := by
  induction ns with
  | nil => cases hmem
  | cons g rest ih =>
    rw [serFields]
    rcases List.mem_cons.mp hmem with hf | hf
    · subst hf
      split
    
      · exact ⟨_, rfl⟩
      · rename_i v hv
        rw [habs] at hv
        cases hv
    · split
      · exact ⟨_, rfl⟩
      · rcases hser : ast_to_dict _ with e | doc
        · exact ⟨_, rfl⟩
        · rcases ih hf with ⟨e, he⟩
          simp only [he]
          exact ⟨_, rfl⟩

/-- The attribute loop emits exactly the declared attribute names, in
declared order. -/
theorem serAttrs_fst (d : List (String × PyVal)) (ns : List String)
    (l : List (String × PyVal)) (h : serAttrs d ns = .ok l) :
    l.map Prod.fst = ns := by
  induction ns generalizing l with
  | nil =>
    rw [serAttrs] at h
    cases h
    rfl
  | cons a rest ih =>
    rw [serAttrs] at h
    split at h
    · cases h
    · split at h
      · cases h
      · cases h
        simp [ih _ (by assumption)]

/-- Every entry the attribute loop emits is the recursive serialization of
`getattr(node, attr, None)`: the looked-up value, `None` when absent. -/
theorem serAttrs_mem (d : List (String × PyVal)) (ns : List String)
    (l : List (String × PyVal)) (h : serAttrs d ns = .ok l) :
    ∀ p ∈ l, ast_to_dict ((getattr? d p.1).getD PyVal.none) = .ok p.2 := by
  induction ns generalizing l with
  | nil =>
    rw [serAttrs] at h
    cases h
    intro p hp
    cases hp
  | cons a rest ih =>
    rw [serAttrs] at h
    split at h
    · cases h
    · split at h
      · cases h
      · cases h
        intro p hp
        rcases List.mem_cons.mp hp with hp | hp
        · subst hp
          assumption
        · exact ih _ (by assumption) p hp

/-- An attribute that is declared but absent on the instance is emitted as
`None` (Python `null` in the JSON output). -/
theorem serAttrs_absent (d : List (String × PyVal)) (ns : List String)
    (l : List (String × PyVal)) (h : serAttrs d ns = .ok l)
    (a : String) (hmem : a ∈ ns) (habs : getattr? d a = Option.none) :
    (a, PyVal.none) ∈ l := by
  have hfst := serAttrs_fst d ns l h
  have hmem' : a ∈ l.map Prod.fst := by
    rw [hfst]
    exact hmem
  rcases List.mem_map.mp hmem' with ⟨p, hp, hpa⟩
  have hv := serAttrs_mem d ns l h p hp
  rw [hpa, habs] at hv
  simp only [Option.getD_none, ast_to_dict, Except.ok.injEq] at hv
  have hpn : p = (a, PyVal.none) := Prod.ext hpa hv.symm
  rw [← hpn]
  exact hp

/-- The list case serializes element by element, preserving length and order. -/
theorem serList_spec (xs : List PyVal) (docs : List PyVal)
    (h : serList xs = .ok docs) :
    docs.length = xs.length ∧
      ∀ i (hi : i < xs.length) (hi' : i < docs.length),
        ast_to_dict (xs.get ⟨i, hi⟩) = .ok (docs.get ⟨i, hi'⟩) := by
  induction xs generalizing docs with
  | nil =>
    rw [serList] at h
    cases h
    exact ⟨rfl, fun i hi => absurd hi (Nat.not_lt_zero i)⟩
  | cons x rest ih =>
    rw [serList] at h
    split at h
    · cases h
    · split at h
      · cases h
      · cases h
        rcases ih _ (by assumption) with ⟨hlen, hget⟩
        refine ⟨by simp [hlen], ?_⟩
        intro i hi hi'
        cases i with
        | zero => assumption
        | succ j => exact hget j (Nat.lt_of_succ_lt_succ hi) (Nat.lt_of_succ_lt_succ hi')

/-- Error propagation: a declared field absent from the instance makes the
whole node serialization raise. -/
theorem ast_to_dict_node_absent_field (kind : String) (fields attrs : List String)
    (d : List (String × PyVal)) (f : String)
    (hmem : f ∈ fields) (habs : getattr? d f = Option.none) :
    ∃ e, ast_to_dict (PyVal.node kind fields attrs d) = .error e := by
  rcases serFields_absent d fields f hmem habs with ⟨e, he⟩
  rw [ast_to_dict]
  simp only [he]
  exact ⟨e, rfl⟩

/-! ### Shape isomorphism between a tree and its serialized document

`MirrorsShape doc t` is the result of re-walking the document alongside the
input tree: a mapping must open with `_type` holding the node's kind, carry
the field names then the attribute names verbatim as keys (in declared
order), and each entry must recursively mirror the member value `getattr`
finds (`None` for an absent attribute); a list must mirror element by
element with equal length; anything else must be the scalar itself. -/

inductive MirrorsShape : PyVal → PyVal → Prop where
  | node (kind : String) (fields attrs : List String) (d : List (String × PyVal))
      (fentries aentries : List (String × PyVal))
      (hf : fentries.map Prod.fst = fields)
      (ha : aentries.map Prod.fst = attrs)
      (hpresent : ∀ p ∈ fentries, (getattr? d p.1).isSome)
      (hfv : ∀ p ∈ fentries, ∀ w, getattr? d p.1 = some w → MirrorsShape p.2 w)
      (hav : ∀ p ∈ aentries, MirrorsShape p.2 ((getattr? d p.1).getD PyVal.none)) :
      MirrorsShape (PyVal.dict (("_type", PyVal.str kind) :: (fentries ++ aentries)))
        (PyVal.node kind fields attrs d)
  | list (docs xs : List PyVal) (hlen : docs.length = xs.length)
      (helt : ∀ i (hi : i < docs.length) (hi' : i < xs.length),
        MirrorsShape (docs.get ⟨i, hi⟩) (xs.get ⟨i, hi'⟩)) :
      MirrorsShape (PyVal.list docs) (PyVal.list xs)
  | scalar (v : PyVal) (hn : ∀ k fs ats d, v ≠ PyVal.node k fs ats d)
      (hl : ∀ xs, v ≠ PyVal.list xs) : MirrorsShape v v

theorem node_member_sizeOf (kind : String) (fields attrs : List String)
    (d : List (String × PyVal)) {f : String} {w : PyVal}
    (hw : getattr? d f = some w) :
    sizeOf w < sizeOf (PyVal.node kind fields attrs d) := by
  have := getattr?_sizeOf hw
  simp
  omega

theorem node_attr_sizeOf (kind : String) (fields attrs : List String)
    (d : List (String × PyVal)) (a : String) :
    sizeOf ((getattr? d a).getD PyVal.none) < sizeOf (PyVal.node kind fields attrs d) := by
  rcases hh : getattr? d a with _ | v
  · have := list_sizeOf_pos d
    simp [hh]
    omega
  · have := getattr?_sizeOf hh
    simp [hh]
    omega

theorem list_elt_sizeOf {x : PyVal} {xs : List PyVal} (hx : x ∈ xs) :
    sizeOf x < sizeOf (PyVal.list xs) := by
  have := List.sizeOf_lt_of_mem hx
  simp
  omega

/-- Any successful serialization yields a document mirroring the input
tree's shape. -/
theorem serialize_mirrors_aux : ∀ (n : Nat) (t doc : PyVal), sizeOf t ≤ n →
    ast_to_dict t = .ok doc → MirrorsShape doc t := by
  intro n
  induction n using Nat.strong_induction_on with
  | _ n ih =>
    intro t doc hsz hser
    cases t with
    | node kind fields attrs d =>
      rcases ast_to_dict_node_inv _ _ _ _ _ hser with ⟨fdocs, adocs, hf, ha, rfl⟩
      apply MirrorsShape.node
      · exact serFields_fst _ _ _ hf
      · exact serAttrs_fst _ _ _ ha
      · intro p hp
        rcases serFields_mem _ _ _ hf p hp with ⟨w, hw, hws⟩
        rw [hw]
        rfl
      · intro p hp w hw
        rcases serFields_mem _ _ _ hf p hp with ⟨w', hw', hws⟩
        rw [hw] at hw'
        cases hw'
        have h1 := node_member_sizeOf kind fields attrs d hw
        exact ih (sizeOf w) (by omega) w p.2 (le_refl _) hws
      · intro p hp
        have hv := serAttrs_mem _ _ _ ha p hp
        have h1 := node_attr_sizeOf kind fields attrs d p.1
        exact ih (sizeOf ((getattr? d p.1).getD PyVal.none)) (by omega) _ p.2 (le_refl _) hv
    | list xs =>
      rcases ast_to_dict_list_inv _ _ hser with ⟨docs, hl, rfl⟩
      rcases serList_spec _ _ hl with ⟨hlen, hget⟩
      apply MirrorsShape.list
      · exact hlen
      · intro i hi hi'
        have h1 := list_elt_sizeOf (List.get_mem xs i hi')
        exact ih (sizeOf (xs.get ⟨i, hi'⟩)) (by omega) _ _ (le_refl _) (hget i hi' hi)
    | dict entries =>
      simp only [ast_to_dict, Except.ok.injEq] at hser
      subst hser
      exact MirrorsShape.scalar _ (by intro k fs ats dd h; cases h) (by intro ys h; cases h)
    | tuple elts =>
      simp only [ast_to_dict, Except.ok.injEq] at hser
      subst hser
      exact MirrorsShape.scalar _ (by intro k fs ats dd h; cases h) (by intro ys h; cases h)
    | str s =>
      simp only [ast_to_dict, Except.ok.injEq] at hser
      subst hser
      exact MirrorsShape.scalar _ (by intro k fs ats dd h; cases h) (by intro ys h; cases h)
    | int m =>
      simp only [ast_to_dict, Except.ok.injEq] at hser
      subst hser
      exact MirrorsShape.scalar _ (by intro k fs ats dd h; cases h) (by intro ys h; cases h)
    | boolean b =>
      simp only [ast_to_dict, Except.ok.injEq] at hser
      subst hser
      exact MirrorsShape.scalar _ (by intro k fs ats dd h; cases h) (by intro ys h; cases h)
    | bytes bs =>
      simp only [ast_to_dict, Except.ok.injEq] at hser
      subst hser
      exact MirrorsShape.scalar _ (by intro k fs ats dd h; cases h) (by intro ys h; cases h)
    | none =>
      simp only [ast_to_dict, Except.ok.injEq] at hser
      subst hser
      exact MirrorsShape.scalar _ (by intro k fs ats dd h; cases h) (by intro ys h; cases h)

/-! ### The command-line glue of `py2ast.py` -/

/-- Outcome of one process invocation: exit status and everything written to
the two output streams. -/
structure ProcResult where
  exitCode : Nat
  stdout : String
  stderr : String

/-- Modelled from the spec: the external collaborators of the CLI glue are
standard-library facilities, not code of this repository.  `readFile` stands
for `open(path, 'r', encoding='utf-8').read()` — a UTF-8 text read that may
fail with an I/O or decode error.  `parse` stands for
`ast.parse(source, filename, mode, type_comments)` — the external parser,
which may fail with a syntax error.  `jsonDump` stands for
`json.dump(doc, sys.stdout, indent, ensure_ascii)` rendered as one string:
per the spec the emission is all-or-nothing (either the full Document is
written, or nothing is written and the process fails). -/
structure Env where
  readFile : String → Except String String
  parse : (source : String) → (filename : String) → (mode : String) →
    (type_comments : Bool) → Except String PyVal
  jsonDump : (doc : PyVal) → (indent : Nat) → (ensure_ascii : Bool) →
    Except String String

/-- The `__main__` block of `py2ast.py`.  `argv` is `sys.argv`, script name
first.  A usage error prints `Usage: python {sys.argv[0]} <python_source_file>`
to stderr and exits with status 1; any uncaught exception (I/O, decode,
syntax, serialization, JSON emission) terminates the process with status 1
and a diagnostic on stderr; on success the document is parsed in mode
`exec` with `type_comments=True`, serialized and dumped with `indent=2`,
`ensure_ascii=False`, and the process exits with status 0. -/
def runMain (env : Env) (argv : List String) : ProcResult :=
  if argv.length ≠ 2 then
    { exitCode := 1, stdout := "",
      stderr := "Usage: python " ++ argv.headD ("") ++ " <python_source_file>\n" }
  else
    match env.readFile (argv.getD 1 ("")) with
    | .error e => { exitCode := 1, stdout := "", stderr := e }
    | .ok source =>
      match env.parse source (argv.getD 1 ("")) ("exec") true with
      | .error e => { exitCode := 1, stdout := "", stderr := e }
      | .ok tree =>
        match ast_to_dict tree with
        | .error e => { exitCode := 1, stdout := "", stderr := e }
        | .ok doc =>
          match env.jsonDump doc 2 false with
          | .error e => { exitCode := 1, stdout := "", stderr := e }
          | .ok out => { exitCode := 0, stdout := out, stderr := "" }

/-- A concrete environment used to instantiate the CLI theorems: reading
always yields `x = 1`-style source, parsing yields an empty module, dumping
yields a fixed rendering. -/
def testEnv : Env where
  readFile := fun _ => .ok ("x = 1\n")
  parse := fun _ _ _ _ => .ok (PyVal.node ("Module") ["body"] [] [("body", PyVal.list [])])
  jsonDump := fun _ _ _ => .ok ("rendered")

/-! ### The claims -/

set_option maxHeartbeats 1000000

/-- C1: for a SyntaxNode input whose declared members serialize successfully,
`ast_to_dict` produces a mapping whose first key `_type` holds the node's
kind name as a string, followed by one entry per declared field name in
declared field order holding the recursively serialized field value,
followed by one entry per declared attribute name in declared attribute
order holding the recursively serialized attribute value, with `None`
substituted when the attribute is absent on the instance. -/
theorem claim_node_mapping (kind : String) (fields attrs : List String)
    (d : List (String × PyVal)) (fdocs adocs : List (String × PyVal))
    (hf : serFields d fields = .ok fdocs) (ha : serAttrs d attrs = .ok adocs) :
    ast_to_dict (PyVal.node kind fields attrs d) =
      .ok (PyVal.dict (("_type", PyVal.str kind) :: (fdocs ++ adocs))) ∧
    fdocs.map Prod.fst = fields ∧
    adocs.map Prod.fst = attrs ∧
    (∀ p ∈ fdocs, ∃ w, getattr? d p.1 = some w ∧ ast_to_dict w = .ok p.2) ∧
    (∀ p ∈ adocs, ast_to_dict ((getattr? d p.1).getD PyVal.none) = .ok p.2) :=
  ⟨ast_to_dict_node_eq _ _ _ _ _ _ hf ha, serFields_fst _ _ _ hf,
    serAttrs_fst _ _ _ ha, serFields_mem _ _ _ hf, serAttrs_mem _ _ _ ha⟩

theorem claim_node_mapping_witness :
    serFields [("body", PyVal.list [])] ["body"] = .ok [("body", PyVal.list [])] ∧
    serAttrs [("body", PyVal.list [])] ["lineno"] = .ok [("lineno", PyVal.none)] ∧
    ast_to_dict (PyVal.node ("Module") ["body"] ["lineno"] [("body", PyVal.list [])]) =
      .ok (PyVal.dict [("_type", PyVal.str ("Module")),
        ("body", PyVal.list []), ("lineno", PyVal.none)]) := by
  have hf : serFields [("body", PyVal.list [])] ["body"] = .ok [("body", PyVal.list [])] := by
    simp [serFields, getattr?, ast_to_dict, serList]
  have ha : serAttrs [("body", PyVal.list [])] ["lineno"] = .ok [("lineno", PyVal.none)] := by
    simp [serAttrs, getattr?, ast_to_dict]
  refine ⟨hf, ha, ?_⟩
  have h := claim_node_mapping ("Module") ["body"] ["lineno"] _ _ _ hf ha
  simpa using h.1

/-- C2: a `list` input serializes to a list obtained by recursively
serializing each element, with the same length and element order; the empty
list serializes to the empty list. -/
theorem claim_list_order :
    ast_to_dict (PyVal.list []) = .ok (PyVal.list []) ∧
    ∀ xs docs, serList xs = .ok docs →
      ast_to_dict (PyVal.list xs) = .ok (PyVal.list docs) ∧
      docs.length = xs.length ∧
      ∀ i (hi : i < xs.length) (hi' : i < docs.length),
        ast_to_dict (xs.get ⟨i, hi⟩) = .ok (docs.get ⟨i, hi'⟩) := by
  constructor
  · simp [ast_to_dict, serList]
  · intro xs docs h
    exact ⟨by simp [ast_to_dict, h], (serList_spec _ _ h).1, (serList_spec _ _ h).2⟩

theorem claim_list_order_witness :
    serList [PyVal.int 1, PyVal.none] = .ok [PyVal.int 1, PyVal.none] ∧
    ast_to_dict (PyVal.list [PyVal.int 1, PyVal.none]) =
      .ok (PyVal.list [PyVal.int 1, PyVal.none]) ∧
    ([PyVal.int 1, PyVal.none].length = 2) := by
  have h : serList [PyVal.int 1, PyVal.none] = .ok [PyVal.int 1, PyVal.none] := by
    simp [serList, ast_to_dict]
  exact ⟨h, (claim_list_order.2 [PyVal.int 1, PyVal.none] _ h).1, rfl⟩

/-- C3: a value that is neither a SyntaxNode nor a `list` — string, number,
boolean, `None`, or any other scalar the serializer has no case for — is
returned unchanged, and no error is raised. -/
theorem claim_scalar_passthrough (v : PyVal)
    (hn : ∀ k fs ats d, v ≠ PyVal.node k fs ats d)
    (hl : ∀ xs, v ≠ PyVal.list xs) :
    ast_to_dict v = .ok v :=
  ast_to_dict_scalar v hn hl

theorem claim_scalar_passthrough_witness :
    (∀ k fs ats d, PyVal.bytes [104] ≠ PyVal.node k fs ats d) ∧
    (∀ xs, PyVal.bytes [104] ≠ PyVal.list xs) ∧
    ast_to_dict (PyVal.bytes [104]) = .ok (PyVal.bytes [104]) := by
  have hn : ∀ k fs ats d, PyVal.bytes [104] ≠ PyVal.node k fs ats d := by
    intro k fs ats d h
    cases h
  have hl : ∀ xs, PyVal.bytes [104] ≠ PyVal.list xs := by
    intro xs h
    cases h
  exact ⟨hn, hl, claim_scalar_passthrough (PyVal.bytes [104]) hn hl⟩

/-- C4: serialization is a pure function of the input tree — equal trees
serialize equally and render to equal JSON text — and the produced mapping's
key order is `_type` first, then the fields in declared order, then the
attributes in declared order. -/
theorem claim_determinism (t₁ t₂ : PyVal) (h : t₁ = t₂) :
    ast_to_dict t₁ = ast_to_dict t₂ ∧
    (∀ (env : Env) (doc₁ doc₂ : PyVal), doc₁ = doc₂ →
      env.jsonDump doc₁ 2 false = env.jsonDump doc₂ 2 false) ∧
    (∀ kind fields attrs d entries,
      ast_to_dict (PyVal.node kind fields attrs d) = .ok (PyVal.dict entries) →
      entries.map Prod.fst = "_type" :: (fields ++ attrs)) := by
  refine ⟨by rw [h], fun env d₁ d₂ hd => by rw [hd], ?_⟩
  intro kind fields attrs d entries hser
  rcases ast_to_dict_node_inv _ _ _ _ _ hser with ⟨fdocs, adocs, hf, ha, heq⟩
  injection heq with h₂
  subst h₂
  simp [serFields_fst _ _ _ hf, serAttrs_fst _ _ _ ha]

theorem claim_determinism_witness :
    ast_to_dict (PyVal.int 7) = ast_to_dict (PyVal.int 7) ∧
    ([("_type", PyVal.str ("Pass")), ("lineno", PyVal.none)].map Prod.fst
      = "_type" :: (([] : List String) ++ ["lineno"])) := by
  have h := claim_determinism (PyVal.int 7) (PyVal.int 7) rfl
  refine ⟨h.1, ?_⟩
  apply h.2.2 ("Pass") [] ["lineno"] []
  simp [ast_to_dict, serFields, serAttrs, getattr?]

/-- C5: any successfully serialized document is a pure tree mirroring the
input tree's shape: re-walking it alongside the input and comparing node
kind, field and attribute names yields no discrepancy, and every field and
attribute name appears verbatim as a mapping key. -/
theorem claim_shape_mirror (t doc : PyVal) (h : ast_to_dict t = .ok doc) :
    MirrorsShape doc t :=
  serialize_mirrors_aux (sizeOf t) t doc (le_refl _) h

theorem claim_shape_mirror_witness :
    ast_to_dict (PyVal.node ("Pass") [] ["lineno"] []) =
      .ok (PyVal.dict [("_type", PyVal.str ("Pass")), ("lineno", PyVal.none)]) ∧
    MirrorsShape (PyVal.dict [("_type", PyVal.str ("Pass")), ("lineno", PyVal.none)])
      (PyVal.node ("Pass") [] ["lineno"] []) := by
  have h : ast_to_dict (PyVal.node ("Pass") [] ["lineno"] []) =
      .ok (PyVal.dict [("_type", PyVal.str ("Pass")), ("lineno", PyVal.none)]) := by
    simp [ast_to_dict, serFields, serAttrs, getattr?]
  exact ⟨h, claim_shape_mirror _ _ h⟩

/-- C6: any invocation whose argument count differs from exactly one
positional argument prints the usage line to the error stream, exits with
status 1, and writes nothing to standard output. -/
theorem claim_usage_error (env : Env) (argv : List String) (h : argv.length ≠ 2) :
    runMain env argv =
      { exitCode := 1, stdout := "",
        stderr := "Usage: python " ++ argv.headD ("") ++ " <python_source_file>\n" } ∧
    (runMain env argv).stdout = "" := by
  rw [runMain]
  rw [if_pos h]
  exact ⟨rfl, rfl⟩

theorem claim_usage_error_witness :
    ([("py2ast.py" : String)].length ≠ 2) ∧
    runMain testEnv [("py2ast.py" : String)] =
      { exitCode := 1, stdout := "",
        stderr := "Usage: python " ++ ("py2ast.py" : String) ++ " <python_source_file>\n" } := by
  have h : ([("py2ast.py" : String)].length ≠ 2) := by decide
  exact ⟨h, (claim_usage_error testEnv [("py2ast.py" : String)] h).1⟩

/-- C7: the standard-output stream is all-or-nothing — either the process
exits with status 0 and stdout carries the complete JSON rendering of a
fully serialized document, or stdout is empty and the process fails with a
nonzero status. -/
theorem claim_all_or_nothing (env : Env) (argv : List String) :
    ((runMain env argv).exitCode = 0 ∧
      ∃ tree doc, ast_to_dict tree = .ok doc ∧
        env.jsonDump doc 2 false = .ok ((runMain env argv).stdout)) ∨
    ((runMain env argv).stdout = "" ∧ (runMain env argv).exitCode = 1) := by
  rw [runMain]
  split
  · right
    exact ⟨rfl, rfl⟩
  · split
    · right
      exact ⟨rfl, rfl⟩
    · split
      · right
        exact ⟨rfl, rfl⟩
      · split
        · right
          exact ⟨rfl, rfl⟩
        · split
          · right
            exact ⟨rfl, rfl⟩
          · left
            exact ⟨rfl, _, _, by assumption, by assumption⟩

/-- C8: with exactly one argument naming a readable, syntactically valid
source file, the program reads the file as UTF-8, parses it in whole-file
(`exec`) mode with type-annotation comments retained, serializes the tree,
writes the JSON rendering (indent 2, non-ASCII literal) to standard output,
and exits with status 0. -/
theorem claim_success_path (env : Env) (prog path source : String)
    (tree doc : PyVal) (out : String)
    (hread : env.readFile path = .ok source)
    (hparse : env.parse source path ("exec") true = .ok tree)
    (hser : ast_to_dict tree = .ok doc)
    (hdump : env.jsonDump doc 2 false = .ok out) :
    runMain env [prog, path] = { exitCode := 0, stdout := out, stderr := "" } := by
  rw [runMain]
  simp [hread, hparse, hser, hdump]

theorem claim_success_path_witness :
    testEnv.readFile ("a.py") = .ok ("x = 1\n") ∧
    testEnv.parse ("x = 1\n") ("a.py") ("exec") true =
      .ok (PyVal.node ("Module") ["body"] [] [("body", PyVal.list [])]) ∧
    runMain testEnv [("py2ast.py" : String), ("a.py" : String)] =
      { exitCode := 0, stdout := "rendered", stderr := "" } := by
  have hread : testEnv.readFile ("a.py") = .ok ("x = 1\n") := rfl
  have hparse : testEnv.parse ("x = 1\n") ("a.py") ("exec") true =
      .ok (PyVal.node ("Module") ["body"] [] [("body", PyVal.list [])]) := rfl
  have hser : ast_to_dict (PyVal.node ("Module") ["body"] [] [("body", PyVal.list [])]) =
      .ok (PyVal.dict [("_type", PyVal.str ("Module")), ("body", PyVal.list [])]) := by
    simp [ast_to_dict, serFields, serAttrs, serList, getattr?]
  have hdump : testEnv.jsonDump
      (PyVal.dict [("_type", PyVal.str ("Module")), ("body", PyVal.list [])]) 2 false =
      .ok ("rendered") := rfl
  exact ⟨hread, hparse,
    claim_success_path testEnv ("py2ast.py") ("a.py") ("x = 1\n") _ _ _ hread hparse hser hdump⟩

/-- C9: only exact `list` instances get element-wise serialization; any
other ordered sequence, e.g. a tuple, falls through to the scalar case and
is returned unchanged as one opaque value, even when it contains nodes. -/
theorem claim_tuple_opaque (xs : List PyVal) :
    ast_to_dict (PyVal.tuple xs) = .ok (PyVal.tuple xs) ∧
    (∀ ys : List PyVal, PyVal.tuple xs ≠ PyVal.list ys) := by
  refine ⟨by simp [ast_to_dict], ?_⟩
  intro ys h
  cases h

/-- C10: the `None` default applies only to attributes, not to fields — an
absent declared attribute is emitted as `None` under its name, while an
absent declared field makes serialization raise (`getattr` with no
default). -/
theorem claim_field_vs_attr_default :
    (∀ kind fields attrs d a entries, a ∈ attrs → getattr? d a = Option.none →
      ast_to_dict (PyVal.node kind fields attrs d) = .ok (PyVal.dict entries) →
      (a, PyVal.none) ∈ entries) ∧
    (∀ kind fields attrs d f, f ∈ fields → getattr? d f = Option.none →
      ∃ e, ast_to_dict (PyVal.node kind fields attrs d) = .error e) := by
  constructor
  · intro kind fields attrs d a entries hmem habs hser
    rcases ast_to_dict_node_inv _ _ _ _ _ hser with ⟨fdocs, adocs, hf, ha, heq⟩
    injection heq with h₂
    subst h₂
    have := serAttrs_absent d attrs adocs ha a hmem habs
    exact List.mem_cons_of_mem _ (List.mem_append_right _ this)
  · intro kind fields attrs d f hmem habs
    exact ast_to_dict_node_absent_field kind fields attrs d f hmem habs

theorem claim_field_vs_attr_default_witness :
    (("lineno" : String) ∈ ["lineno"]) ∧
    getattr? [] ("lineno") = Option.none ∧
    ast_to_dict (PyVal.node ("Pass") [] ["lineno"] []) =
      .ok (PyVal.dict [("_type", PyVal.str ("Pass")), ("lineno", PyVal.none)]) ∧
    (("lineno", PyVal.none) ∈ [("_type", PyVal.str ("Pass")), ("lineno", PyVal.none)]) ∧
    (∃ e, ast_to_dict (PyVal.node ("Name") ["id"] [] []) = .error e) := by
  have h₁ : ("lineno" : String) ∈ ["lineno"] := List.mem_singleton.mpr rfl
  have h₂ : getattr? [] ("lineno") = Option.none := rfl
  have h₃ : ast_to_dict (PyVal.node ("Pass") [] ["lineno"] []) =
      .ok (PyVal.dict [("_type", PyVal.str ("Pass")), ("lineno", PyVal.none)]) := by
    simp [ast_to_dict, serFields, serAttrs, getattr?]
  refine ⟨h₁, h₂, h₃, ?_, ?_⟩
  · exact claim_field_vs_attr_default.1 ("Pass") [] ["lineno"] [] ("lineno") _ h₁ h₂ h₃
  · exact claim_field_vs_attr_default.2 ("Name") ["id"] [] [] ("id")
      (List.mem_singleton.mpr rfl) rfl
